import Mathlib

/-!
Shallow embedding of the zipserve archive-assembly engine: the entry
normalizer and binary codecs (writer.go, struct.go), the virtual byte-range
composer (multiReaderAt), and the archive builder (newArchive).  Byte strings
are `List Nat` (each element one byte), machine integers are `Nat`/`Int` with
explicit truncation where Go's fixed-width arithmetic can overflow.  The
HTTP-serving layer, etag hashing and timestamp bookkeeping of the source are
not modelled: no claim mentions them.
-/

set_option maxRecDepth 8000

namespace Zipserve

/-! ## Constants (struct.go) -/

def Store : Nat := 0
def fileHeaderSignature : Nat := 0x04034b50
def directoryHeaderSignature : Nat := 0x02014b50
def directoryEndSignature : Nat := 0x06054b50
def directory64LocSignature : Nat := 0x07064b50
def directory64EndSignature : Nat := 0x06064b50
def dataDescriptorSignature : Nat := 0x08074b50
def fileHeaderLen : Nat := 30
def directoryHeaderLen : Nat := 46
def directoryEndLen : Nat := 22
def dataDescriptorLen : Nat := 16
def dataDescriptor64Len : Nat := 24
def directory64LocLen : Nat := 20
def directory64EndLen : Nat := 56
def extTimeExtraLen : Nat := 9
def zipVersion20 : Nat := 20
def zipVersion45 : Nat := 45
def uint16max : Nat := (1 <<< 16) - 1
def uint32max : Nat := (1 <<< 32) - 1
def zip64ExtraID : Nat := 0x0001
def extTimeExtraID : Nat := 0x5455

/-! ## Machine-integer conversions.

Go's fixed-width conversions and wrapping arithmetic, on `Nat`/`Int`. -/

/-- `uint16(v)` for a non-negative value. -/
def toUint16 (x : Int) : Nat := (x % (2 ^ 16 : Int)).toNat

/-- `uint32(v)` truncation of a signed 64-bit value. -/
def toUint32 (x : Int) : Nat := (x % (2 ^ 32 : Int)).toNat

/-- `uint64(v)` reinterpretation of a signed 64-bit value. -/
def toUint64 (x : Int) : Nat := (x % (2 ^ 64 : Int)).toNat

/-- `int64(v)` reinterpretation of an unsigned 64-bit value. -/
def toInt64 (c : Nat) : Int := if c < 2 ^ 63 then (c : Int) else (c : Int) - 2 ^ 64

/-- Wrap-around of Go's signed 64-bit addition result. -/
def wrap64 (x : Int) : Int := (x + 2 ^ 63) % 2 ^ 64 - 2 ^ 63

/-! ## Little-endian byte encoders (writeBuf, writer.go) -/

def u16 (v : Nat) : List Nat := [v % 256, v / 256 % 256]

def u32 (v : Nat) : List Nat :=
  [v % 256, v / 256 % 256, v / 2 ^ 16 % 256, v / 2 ^ 24 % 256]

def u64 (v : Nat) : List Nat :=
  [v % 256, v / 256 % 256, v / 2 ^ 16 % 256, v / 2 ^ 24 % 256,
   v / 2 ^ 32 % 256, v / 2 ^ 40 % 256, v / 2 ^ 48 % 256, v / 2 ^ 56 % 256]

/-! ## Time model.

`time.Time` reduced to the fields the encoders read: the Unix seconds
(an int64) and the calendar fields used by `timeToMsDosTime`. -/

structure TimeM where
  unix : Int
  year : Nat
  month : Nat
  day : Nat
  hour : Nat
  minute : Nat
  second : Nat

/-- `timeToMsDosTime` (struct.go): the MS-DOS date word. -/
def msdosDate (t : TimeM) : Nat :=
  toUint16 ((t.day : Int) + (t.month : Int) * 32 + ((t.year : Int) - 1980) * 512)

/-- `timeToMsDosTime` (struct.go): the 2-second-resolution time word. -/
def msdosTime (t : TimeM) : Nat :=
  toUint16 ((t.second / 2 : Nat) + (t.minute : Int) * 32 + (t.hour : Int) * 2048)

/-! ## Read errors and reader functions.

A backing `ReaderAt` is a function from (buffer length, offset) to
(bytes read, optional error); `ReadErr.eof` is `io.EOF`. -/

inductive ReadErr where
  | eof : ReadErr
  | src : Nat → ReadErr
  deriving DecidableEq

def ReadFn : Type := Nat → Int → Nat × Option ReadErr

/-- `bytes.Reader.ReadAt`: the in-memory reader backing header blobs. -/
def bytesReadAt (data : List Nat) : ReadFn := fun bufLen off =>
  if off < 0 then (0, some (ReadErr.src 0))
  else if (data.length : Int) ≤ off then (0, some ReadErr.eof)
  else
    let n := min bufLen (data.length - off.toNat)
    (n, if n < bufLen then some ReadErr.eof else none)

/-! ## FileHeader (struct.go) -/

structure FileHeader where
  Name : List Nat
  Comment : List Nat
  NonUTF8 : Bool
  CreatorVersion : Nat
  ReaderVersion : Nat
  Flags : Nat
  Method : Nat
  Modified : TimeM
  CRC32 : Nat
  CompressedSize64 : Nat
  UncompressedSize64 : Nat
  Extra : List Nat
  ExternalAttrs : Nat
  Content : Option ReadFn

/-- `FileHeader.isZip64` (struct.go). -/
def isZip64 (h : FileHeader) : Bool :=
  decide (uint32max ≤ h.CompressedSize64 ∨ uint32max ≤ h.UncompressedSize64)

/-- `strings.HasSuffix(name, "/")` on a byte string. -/
def endsSlash (name : List Nat) : Bool := name.getLast? == some 47

/-! ## UTF-8 detection (detectUTF8, writer.go).

`decodeRune` is Go's `utf8.DecodeRuneInString` on a byte list: it returns the
decoded rune and the number of bytes consumed, with `(RuneError, 1)` for any
invalid encoding (bad first byte, missing or out-of-range continuation bytes,
surrogates, overlong forms). -/

def runeError : Nat := 0xFFFD

def decodeRune : List Nat → Nat × Nat
  | [] => (runeError, 0)
  | c0 :: rest =>
    if c0 < 0x80 then (c0, 1)
    else if 0xC2 ≤ c0 ∧ c0 ≤ 0xDF then
      match rest with
      | s1 :: _ =>
        if 0x80 ≤ s1 ∧ s1 ≤ 0xBF then ((c0 % 32) * 64 + s1 % 64, 2)
        else (runeError, 1)
      | [] => (runeError, 1)
    else if 0xE0 ≤ c0 ∧ c0 ≤ 0xEF then
      let lo := if c0 = 0xE0 then 0xA0 else 0x80
      let hi := if c0 = 0xED then 0x9F else 0xBF
      match rest with
      | s1 :: rest1 =>
        if lo ≤ s1 ∧ s1 ≤ hi then
          match rest1 with
          | s2 :: _ =>
            if 0x80 ≤ s2 ∧ s2 ≤ 0xBF then
              ((c0 % 16) * 4096 + (s1 % 64) * 64 + s2 % 64, 3)
            else (runeError, 1)
          | [] => (runeError, 1)
        else (runeError, 1)
      | [] => (runeError, 1)
    else if 0xF0 ≤ c0 ∧ c0 ≤ 0xF4 then
      let lo := if c0 = 0xF0 then 0x90 else 0x80
      let hi := if c0 = 0xF4 then 0x8F else 0xBF
      match rest with
      | s1 :: rest1 =>
        if lo ≤ s1 ∧ s1 ≤ hi then
          match rest1 with
          | s2 :: rest2 =>
            if 0x80 ≤ s2 ∧ s2 ≤ 0xBF then
              match rest2 with
              | s3 :: _ =>
                if 0x80 ≤ s3 ∧ s3 ≤ 0xBF then
                  ((c0 % 8) * 262144 + (s1 % 64) * 4096 + (s2 % 64) * 64 + s3 % 64, 4)
                else (runeError, 1)
              | [] => (runeError, 1)
            else (runeError, 1)
          | [] => (runeError, 1)
        else (runeError, 1)
      | [] => (runeError, 1)
    else (runeError, 1)

/-- `utf8.ValidRune`. -/
def validRune (r : Nat) : Bool := decide (¬ (0xD800 ≤ r ∧ r ≤ 0xDFFF) ∧ r ≤ 0x10FFFF)

/-- The loop of `detectUTF8` (writer.go), accumulating `require`.  The loop
consumes at least one byte per iteration, so running it with fuel equal to
the byte length is exact: the fuel-exhaustion branch is unreachable. -/
def detectUTF8Loop : Nat → List Nat → Bool → Bool × Bool
  | _, [], require => (true, require)
  | 0, _ :: _, _ => (false, false)
  | fuel + 1, c0 :: rest, require =>
    let rs := decodeRune (c0 :: rest)
    if rs.1 < 0x20 ∨ 0x7d < rs.1 ∨ rs.1 = 0x5c then
      if ¬ validRune rs.1 = true ∨ (rs.1 = runeError ∧ rs.2 = 1) then (false, false)
      else detectUTF8Loop fuel ((c0 :: rest).drop rs.2) true
    else detectUTF8Loop fuel ((c0 :: rest).drop rs.2) require

/-- `detectUTF8` (writer.go): returns `(valid, require)`. -/
def detectUTF8 (s : List Nat) : Bool × Bool := detectUTF8Loop s.length s false

/-! ## Entry normalization (prepareEntry, writer.go) -/

/-- The 9-byte Info-ZIP extended-timestamp extra block appended by
`prepareEntry`: tag 0x5455, length 5, flags 1 (mod-time only), Unix seconds. -/
def extTimeBlock (t : TimeM) : List Nat :=
  u16 extTimeExtraID ++ u16 5 ++ [1] ++ u32 (toUint32 t.unix)

/-- `prepareEntry` (writer.go): derives the UTF-8 flag, versions, extended
timestamp extra block, and the directory/data-descriptor special-casing. -/
def prepareEntry (fh : FileHeader) : FileHeader :=
  let vr1 := detectUTF8 fh.Name
  let vr2 := detectUTF8 fh.Comment
  let flags0 :=
    if fh.NonUTF8 then fh.Flags &&& 0xf7ff
    else if (vr1.2 || vr2.2) && (vr1.1 && vr2.1) then fh.Flags ||| 0x800
    else fh.Flags
  let fh1 := { fh with
    Flags := flags0
    CreatorVersion := (fh.CreatorVersion &&& 0xff00) ||| zipVersion20
    ReaderVersion := zipVersion20
    Extra := fh.Extra ++ extTimeBlock fh.Modified }
  if endsSlash fh.Name then
    { fh1 with
      Method := Store
      Flags := fh1.Flags &&& 0xfff7
      CompressedSize64 := 0
      UncompressedSize64 := 0 }
  else
    { fh1 with Flags := fh1.Flags ||| 0x8 }

/-! ## Local-record codec (writer.go) -/

inductive BuildErr where
  | commentTooLong : BuildErr
  | nameTooLong : BuildErr
  | extraTooLong : BuildErr
  | dirEntryNonNilContent : BuildErr
  | emptyEntryNonzeroLength : BuildErr
  deriving DecidableEq

/-- `writeHeader` (writer.go): the 30-byte local file header followed by the
raw name and extra bytes, or `errLongName`/`errLongExtra`. -/
def writeHeaderBytes (h : FileHeader) : Except BuildErr (List Nat) :=
  if uint16max < h.Name.length then .error .nameTooLong
  else if uint16max < h.Extra.length then .error .extraTooLong
  else .ok (
    u32 fileHeaderSignature ++ u16 h.ReaderVersion ++ u16 h.Flags ++
    u16 h.Method ++ u16 (msdosTime h.Modified) ++ u16 (msdosDate h.Modified) ++
    u32 0 ++ u32 0 ++ u32 0 ++
    u16 h.Name.length ++ u16 h.Extra.length ++ h.Name ++ h.Extra)

/-- `makeDataDescriptor` (writer.go): descriptor bytes; 8-byte size fields
when the entry is ZIP64-sized, 4-byte otherwise. -/
def makeDataDescriptor (fh : FileHeader) : List Nat :=
  if isZip64 fh then
    u32 dataDescriptorSignature ++ u32 fh.CRC32 ++
    u64 fh.CompressedSize64 ++ u64 fh.UncompressedSize64
  else
    u32 dataDescriptorSignature ++ u32 fh.CRC32 ++
    u32 fh.CompressedSize64 ++ u32 fh.UncompressedSize64

/-- The side effect of `makeDataDescriptor` on its argument: ZIP64-sized
entries get `ReaderVersion` upgraded to 4.5. -/
def descriptorMutated (fh : FileHeader) : FileHeader :=
  if isZip64 fh then { fh with ReaderVersion := zipVersion45 } else fh

/-! ## Central-directory codec (writeCentralDirectory, writer.go) -/

/-- `header` (writer.go): a FileHeader plus its local-header offset. -/
structure header where
  fh : FileHeader
  offset : Nat

/-- The ZIP64 extra block appended to a directory record's extra field:
tag 0x0001, length 24, then uncompressed size, compressed size, offset. -/
def zip64ExtraBytes (h : header) : List Nat :=
  u16 zip64ExtraID ++ u16 24 ++
  u64 h.fh.UncompressedSize64 ++ u64 h.fh.CompressedSize64 ++ u64 h.offset

/-- The extra field of a central-directory record after
`writeCentralDirectory` has (possibly) appended the ZIP64 extra block. -/
def cdEntryExtra (h : header) : List Nat :=
  if isZip64 h.fh || decide (uint32max ≤ h.offset) then
    h.fh.Extra ++ zip64ExtraBytes h
  else h.fh.Extra

/-- One central-directory record (the per-entry loop body of
`writeCentralDirectory`): 46-byte fixed part, then name, extra, comment. -/
def cdEntryBytes (h : header) : List Nat :=
  u32 directoryHeaderSignature ++ u16 h.fh.CreatorVersion ++
  u16 h.fh.ReaderVersion ++ u16 h.fh.Flags ++ u16 h.fh.Method ++
  u16 (msdosTime h.fh.Modified) ++ u16 (msdosDate h.fh.Modified) ++
  u32 h.fh.CRC32 ++
  (if isZip64 h.fh || decide (uint32max ≤ h.offset) then
     u32 uint32max ++ u32 uint32max
   else u32 h.fh.CompressedSize64 ++ u32 h.fh.UncompressedSize64) ++
  u16 h.fh.Name.length ++ u16 (cdEntryExtra h).length ++
  u16 h.fh.Comment.length ++ u16 0 ++ u16 0 ++ u32 h.fh.ExternalAttrs ++
  (if uint32max < h.offset then u32 uint32max else u32 h.offset) ++
  h.fh.Name ++ cdEntryExtra h ++ h.fh.Comment

/-- The legacy end-of-central-directory record (22 bytes plus comment);
the count/size/offset fields are truncated as by `uint16`/`uint32`. -/
def directoryEndBytes (records size offset : Nat) (comment : List Nat) : List Nat :=
  u32 directoryEndSignature ++ u16 0 ++ u16 0 ++ u16 records ++ u16 records ++
  u32 size ++ u32 offset ++ u16 comment.length ++ comment

/-- The ZIP64 end-of-central-directory record immediately followed by the
ZIP64 locator record pointing at it. -/
def directory64Bytes (records size offset : Nat) : List Nat :=
  u32 directory64EndSignature ++ u64 (directory64EndLen - 12) ++
  u16 zipVersion45 ++ u16 zipVersion45 ++ u32 0 ++ u32 0 ++
  u64 records ++ u64 records ++ u64 size ++ u64 offset ++
  u32 directory64LocSignature ++ u32 0 ++ u64 (offset + size) ++ u32 1

/-- The end-of-directory section of `writeCentralDirectory`: past the ZIP64
thresholds, the ZIP64 records precede a legacy record holding the sentinel
values; otherwise just the legacy record with the true values. -/
def cdEndBytes (records size offset : Nat) (comment : List Nat) : List Nat :=
  if uint16max ≤ records ∨ uint32max ≤ size ∨ uint32max ≤ offset then
    directory64Bytes records size offset ++
    directoryEndBytes uint16max uint32max uint32max comment
  else directoryEndBytes records size offset comment

/-- `writeCentralDirectory` (writer.go) as a byte-list producer: all entry
records, then the end-of-directory section. -/
def writeCentralDirectoryBytes (start : Int) (dir : List header)
    (comment : List Nat) : List Nat :=
  let entries := (dir.map cdEntryBytes).flatten
  entries ++ cdEndBytes dir.length entries.length (toUint64 start) comment

/-! ## Virtual byte-range composer (multiReaderAt, source file of
`ReadAtContext`).

A part is its starting offset paired with its backing reader; `size` is the
running int64 total.  Reads model only what the claims observe: the byte
count and the error, driven by the buffer length and offset. -/

structure multiReaderAt where
  parts : List (Int × ReadFn)
  size : Int

def dfltPart : Int × ReadFn := (0, fun _ _ => (0, none))

/-- `multiReaderAt.add`: negative size panics (`none`), zero size is
dropped, otherwise the part is appended at the current running total. -/
def mAdd (mcr : multiReaderAt) (data : ReadFn) (size : Int) :
    Option multiReaderAt :=
  if size < 0 then none
  else if size = 0 then some mcr
  else some { parts := mcr.parts ++ [(mcr.size, data)]
              size := wrap64 (mcr.size + size) }

/-- `multiReaderAt.addSizeReaderAt` on an in-memory byte blob: the size is
the blob's length, which is never negative, so the panic case is vacuous. -/
def mAddBytes (mcr : multiReaderAt) (data : List Nat) : multiReaderAt :=
  (mAdd mcr (bytesReadAt data) (data.length : Int)).getD mcr

/-- `multiReaderAt.endOffset`: where part `i` ends — the next part's start,
or the total size for the last part. -/
def endOffset (mcr : multiReaderAt) (i : Nat) : Int :=
  if i = mcr.parts.length - 1 then mcr.size
  else (mcr.parts.getD (i + 1) dfltPart).1

/-- The loop of Go's `sort.Search`: binary search for the least index
satisfying `f`, maintaining `¬f` below `i` and `f` at `j` (for tested
indices). -/
def searchLoop (f : Nat → Bool) (i j : Nat) : Nat :=
  if h : i < j then
    let m := (i + j) / 2
    if f m then searchLoop f i m else searchLoop f (m + 1) j
  else i
  termination_by j - i
  decreasing_by all_goals omega

/-- `sort.Search n f`. -/
def sortSearch (n : Nat) (f : Nat → Bool) : Nat := searchLoop f 0 n

/-- The read loop of `multiReaderAt.ReadAtContext`, from part `firstPart`
onward: `off` is the mutable offset variable, `pLen` the remaining buffer
length, `nAcc` the bytes accumulated so far. -/
def readLoop (mcr : multiReaderAt) (firstPart : Nat) :
    Nat → Int → Nat → Nat → Nat × Option ReadErr := fun idx off pLen nAcc =>
  if _h : idx < mcr.parts.length ∧ 0 < pLen then
    let part := mcr.parts.getD idx dfltPart
    let off1 := if firstPart < idx then part.1 else off
    let partRemainingBytes := endOffset mcr idx - off1
    let sizeToRead : Int :=
      if partRemainingBytes < (pLen : Int) then partRemainingBytes
      else (pLen : Int)
    match part.2 sizeToRead.toNat (off1 - part.1) with
    | (n2, some e) => (nAcc + n2, some e)
    | (n2, none) => readLoop mcr firstPart (idx + 1) off1 (pLen - n2) (nAcc + n2)
  else if 0 < pLen then (nAcc, some ReadErr.eof) else (nAcc, none)
  termination_by idx => mcr.parts.length - idx
  decreasing_by omega

/-- `multiReaderAt.ReadAtContext`, abstracted to the buffer length: returns
the byte count and error of reading `pLen` bytes at offset `off`. -/
def ReadAtContext (mcr : multiReaderAt) (pLen : Nat) (off : Int) :
    Nat × Option ReadErr :=
  if pLen = 0 then (0, none)
  else if mcr.size ≤ off then (0, some ReadErr.eof)
  else
    let firstPart := sortSearch mcr.parts.length (fun i => decide (off < endOffset mcr i))
    readLoop mcr firstPart firstPart off pLen 0

/-! ## Archive builder (newArchive, source file of `NewArchive`).

The builder's observable state is the composer (`multiReaderAt`) and the
directory-record list; the etag hash and create-time bookkeeping are not
modelled.  A Go panic (negative segment size in `multiReaderAt.add`) is the
`panicked` outcome, distinct from an error return. -/

structure Template where
  Prefix : Option ReadFn
  PrefixSize : Int
  Entries : List FileHeader
  Comment : List Nat

inductive BuildRes where
  | ok : multiReaderAt → List header → BuildRes
  | err : BuildErr → BuildRes
  | panicked : BuildRes

/-- The per-entry loop of `newArchive`: normalize, record the directory
entry at the current offset, append the encoded local header, then the
content segment and data descriptor for non-directory entries. -/
def buildLoop : List FileHeader → multiReaderAt → List header → BuildRes
  | [], mcr, dir => .ok mcr dir
  | e :: rest, mcr, dir =>
    let e1 := prepareEntry e
    let entryOffset := toUint64 mcr.size
    match writeHeaderBytes e1 with
    | .error er => .err er
    | .ok hb =>
      let mcr1 := mAddBytes mcr hb
      if endsSlash e1.Name then
        if e1.Content.isSome then .err .dirEntryNonNilContent
        else buildLoop rest mcr1 (dir ++ [⟨e1, entryOffset⟩])
      else
        match e1.Content with
        | some c =>
          match mAdd mcr1 c (toInt64 e1.CompressedSize64) with
          | none => .panicked
          | some mcr2 =>
            let mcr3 := mAddBytes mcr2 (makeDataDescriptor e1)
            buildLoop rest mcr3 (dir ++ [⟨descriptorMutated e1, entryOffset⟩])
        | none =>
          if e1.CompressedSize64 ≠ 0 then .err .emptyEntryNonzeroLength
          else
            let mcr3 := mAddBytes mcr1 (makeDataDescriptor e1)
            buildLoop rest mcr3 (dir ++ [⟨descriptorMutated e1, entryOffset⟩])

inductive Outcome where
  | ok : multiReaderAt → Outcome
  | err : BuildErr → Outcome
  | panicked : Outcome

/-- `newArchive` (the `ok` payload is `ar.parts`, the built composer). -/
def newArchive (t : Template) : Outcome :=
  if uint16max < t.Comment.length then .err .commentTooLong
  else
    let mcr0 : multiReaderAt := ⟨[], 0⟩
    match (match t.Prefix with
           | some p => mAdd mcr0 p t.PrefixSize
           | none => some mcr0) with
    | none => .panicked
    | some mcrP =>
      match buildLoop t.Entries mcrP [] with
      | .err e => .err e
      | .panicked => .panicked
      | .ok mcr dir =>
        let cd := writeCentralDirectoryBytes mcr.size dir t.Comment
        .ok (mAddBytes mcr cd)

/-- Whether construction succeeded. -/
def isOk : Outcome → Bool
  | .ok _ => true
  | _ => false

/-- Whether construction returned an error (as opposed to succeeding or
panicking). -/
def isErr : Outcome → Bool
  | .err _ => true
  | _ => false

/-- Whether construction panicked. -/
def isPanic : Outcome → Bool
  | .panicked => true
  | _ => false

/-- `Archive.Size()` of a successful construction. -/
def outcomeSize : Outcome → Option Int
  | .ok mcr => some mcr.size
  | _ => none

/-- `Archive.ReadAtContext` of a successful construction. -/
def outcomeReadAt (o : Outcome) (pLen : Nat) (off : Int) :
    Option (Nat × Option ReadErr) :=
  match o with
  | .ok mcr => some (ReadAtContext mcr pLen off)
  | _ => none

/-- Whether the builder loop aborted with an error. -/
def isErrB : BuildRes → Bool
  | .err _ => true
  | _ => false

/-- Whether the builder loop panicked. -/
def isPanicB : BuildRes → Bool
  | .panicked => true
  | _ => false

/-! ## Specification-side layout arithmetic.

The closed-form sizes of the claim "Size() equals the sum of the prefix
length, all local header lengths, all content and descriptor lengths, and
the central directory length", computed from the template alone. -/

/-- Length of the encoded local header after normalization: 30 bytes plus
name plus (grown) extra. -/
def localLen (e : FileHeader) : Nat :=
  fileHeaderLen + (prepareEntry e).Name.length + (prepareEntry e).Extra.length

/-- The compressed size of the entry's content segment (directories have
none). -/
def contentLen (e : FileHeader) : Nat :=
  if endsSlash e.Name then 0 else e.CompressedSize64

/-- Length of the entry's data descriptor (directories have none). -/
def descLen (e : FileHeader) : Nat :=
  if endsSlash e.Name then 0
  else if isZip64 (prepareEntry e) then dataDescriptor64Len else dataDescriptorLen

/-- Total bytes contributed by the entry list before the central directory. -/
def entriesLen (es : List FileHeader) : Nat :=
  (es.map (fun e => localLen e + contentLen e + descLen e)).sum

/-- The directory record a successful build produces for each entry, given
the running archive offset. -/
def finalEntry (e : FileHeader) : FileHeader :=
  let e1 := prepareEntry e
  if endsSlash e1.Name then e1 else descriptorMutated e1

/-- The directory-record list of a successful build, with offsets derived
by the same running sum the builder maintains. -/
def specDir : List FileHeader → Nat → List header
  | [], _ => []
  | e :: rest, o => ⟨finalEntry e, o⟩ :: specDir rest (o + localLen e + contentLen e + descLen e)

/-- The prefix segment's length: `PrefixSize` when a prefix is present. -/
def prefixLen (t : Template) : Nat :=
  if t.Prefix.isSome then t.PrefixSize.toNat else 0

/-- The claim's sum: prefix, local headers, contents, descriptors, and the
encoded central directory. -/
def specTotal (t : Template) : Nat :=
  prefixLen t + entriesLen t.Entries +
  (writeCentralDirectoryBytes ((prefixLen t + entriesLen t.Entries : Nat) : Int)
    (specDir t.Entries (prefixLen t)) t.Comment).length

/-! ## Predicates used in the theorems -/

/-- Whether local-header encoding succeeded. -/
def isOkE : Except BuildErr (List Nat) → Bool
  | .ok _ => true
  | .error _ => false

/-- An entry the builder's loop passes through without aborting: its local
header encodes, a directory entry carries no content, and a file entry's
content/size combination is consistent (content sized below 2^63, or no
content and size zero). -/
def goodEntry (e : FileHeader) : Prop :=
  isOkE (writeHeaderBytes (prepareEntry e)) = true ∧
  (if endsSlash e.Name then e.Content.isNone = true
   else (e.Content.isSome = true → e.CompressedSize64 < 2 ^ 63) ∧
        (e.Content.isNone = true → e.CompressedSize64 = 0))

/-- An entry violating the content/size invariants: a file entry with
absent content but nonzero compressed size, or a directory entry with
content present. -/
def badEntry (e : FileHeader) : Prop :=
  (endsSlash e.Name = false ∧ e.Content.isNone = true ∧ e.CompressedSize64 ≠ 0) ∨
  (endsSlash e.Name = true ∧ e.Content.isSome = true)

/-- The `io.ReaderAt` contract for a backing source of declared size:
no more bytes than requested, `io.EOF` (for a nonempty request) only at the
declared end and only on a short read, and short reads always carry an
error. -/
def wellBehaved (f : ReadFn) (size : Int) : Prop :=
  ∀ bufLen (off : Int),
    (f bufLen off).1 ≤ bufLen ∧
    (0 < bufLen → (f bufLen off).2 = some ReadErr.eof →
      size ≤ off + (f bufLen off).1 ∧ (f bufLen off).1 < bufLen) ∧
    ((f bufLen off).1 < bufLen → (f bufLen off).2 ≠ none)

/-- The composer invariants `multiReaderAt.add` establishes on a built
archive: at least one part, and every part starts strictly before it ends. -/
def wfParts (mcr : multiReaderAt) : Prop :=
  mcr.parts ≠ [] ∧
  ∀ i, i < mcr.parts.length → (mcr.parts.getD i dfltPart).1 < endOffset mcr i

/-! ## Concrete fixtures for witnesses and counterexamples -/

def t0 : TimeM := ⟨0, 0, 0, 0, 0, 0, 0⟩

def mkEntry (name : List Nat) (c : Nat) (content : Option ReadFn) : FileHeader :=
  ⟨name, [], false, 0, 0, 0, 0, t0, 0, c, c, [], 0, content⟩

/-- Default entry for out-of-range list lookups in theorem statements. -/
def dfltEntry : FileHeader := mkEntry [] 0 none

/-- A 2-byte stored file named "foo". -/
def eFoo : FileHeader := mkEntry [102, 111, 111] 2 (some (bytesReadAt [104, 105]))

def tFoo : Template := ⟨none, 0, [eFoo], []⟩

/-- A file entry claiming 2^62 compressed bytes. -/
def eBig : FileHeader := mkEntry [97] (2 ^ 62) (some (bytesReadAt []))

/-- Two such entries: the running int64 size overflows during construction. -/
def tBig : Template := ⟨none, 0, [eBig, eBig], []⟩

/-- A directory entry with no content but a nonzero compressed size. -/
def eDir5 : FileHeader := mkEntry [100, 47] 5 none

def tDir5 : Template := ⟨none, 0, [eDir5], []⟩

/-- A directory entry with content present. -/
def eDirC : FileHeader := mkEntry [100, 47] 0 (some (bytesReadAt []))

def tDirC : Template := ⟨none, 0, [eDirC], []⟩

/-- A file entry whose compressed size has the sign bit of int64 set. -/
def eHuge : FileHeader := mkEntry [97] (2 ^ 63) (some (bytesReadAt []))

def tHuge : Template := ⟨none, 0, [eHuge], []⟩

/-- The empty template: the archive is just the 22-byte end record. -/
def tEmpty : Template := ⟨none, 0, [], []⟩

/-- An ASCII-named entry whose caller pre-set the UTF-8 flag bit. -/
def eFlagged : FileHeader := ⟨[97], [], false, 0, 0, 0x800, 0, t0, 0, 0, 0, [], 0, none⟩

/-- An entry whose extra field is at the 65535-byte limit before
normalization. -/
def eExtraFull : FileHeader :=
  ⟨[97], [], false, 0, 0, 0, 0, t0, 0, 0, 0, List.replicate 65535 0, 0, none⟩

/-- A small-sized header whose local-header offset is at 0xFFFFFFFF. -/
def hOffBig : header := ⟨mkEntry [97] 0 none, uint32max⟩

/-- A one-part composer over three in-memory bytes. -/
def mcrW2 : multiReaderAt := ⟨[(0, bytesReadAt [5, 6, 7])], 3⟩

/-- A one-part composer over two in-memory bytes. -/
def mcrW8 : multiReaderAt := ⟨[(0, bytesReadAt [1, 2])], 2⟩

/-! ## Helper lemmas -/

theorem uint16max_eq : uint16max = 65535 := by decide

theorem uint32max_eq : uint32max = 4294967295 := by decide

theorem prepareEntry_Name (fh : FileHeader) : (prepareEntry fh).Name = fh.Name := by
  unfold prepareEntry
  repeat' split
  all_goals rfl

theorem prepareEntry_Content (fh : FileHeader) :
    (prepareEntry fh).Content = fh.Content := by
  unfold prepareEntry
  repeat' split
  all_goals rfl

theorem prepareEntry_Extra (fh : FileHeader) :
    (prepareEntry fh).Extra = fh.Extra ++ extTimeBlock fh.Modified := by
  unfold prepareEntry
  repeat' split
  all_goals rfl

theorem extTimeBlock_length (t : TimeM) : (extTimeBlock t).length = 9 := rfl

theorem prepareEntry_Extra_length (fh : FileHeader) :
    (prepareEntry fh).Extra.length = fh.Extra.length + 9 := by
  rw [prepareEntry_Extra]
  simp [extTimeBlock_length]

theorem prepareEntry_Compressed (fh : FileHeader) (h : endsSlash fh.Name = false) :
    (prepareEntry fh).CompressedSize64 = fh.CompressedSize64 := by
  unfold prepareEntry
  repeat' split
  all_goals simp_all

theorem prepareEntry_Uncompressed (fh : FileHeader) (h : endsSlash fh.Name = false) :
    (prepareEntry fh).UncompressedSize64 = fh.UncompressedSize64 := by
  unfold prepareEntry
  repeat' split
  all_goals simp_all

theorem zip64ExtraBytes_length (h : header) : (zip64ExtraBytes h).length = 28 := by
  simp [zip64ExtraBytes, u16, u64]

/-! ## Claim theorems -/

/-- C6: normalization forces directory entries (name ending in "/") to the
Store method, clears flag bit 3 (data descriptor), and zeroes both size
fields; file entries get flag bit 3 set. -/
theorem directory_entry_normalization (fh : FileHeader) :
    (endsSlash fh.Name = true →
      (prepareEntry fh).Method = Store ∧
      (prepareEntry fh).Flags.testBit 3 = false ∧
      (prepareEntry fh).CompressedSize64 = 0 ∧
      (prepareEntry fh).UncompressedSize64 = 0) ∧
    (endsSlash fh.Name = false → (prepareEntry fh).Flags.testBit 3 = true) := by
  have h3f : Nat.testBit 65527 3 = false := by decide
  have h3t : Nat.testBit 8 3 = true := by decide
  constructor
  · intro h
    refine ⟨?_, ?_, ?_, ?_⟩ <;> unfold prepareEntry <;>
      simp [h, Nat.testBit_land, h3f]
  · intro h
    unfold prepareEntry
    simp [h, Nat.testBit_lor, h3t]

/-- C6 witness: a concrete directory entry and a concrete file entry. -/
theorem directory_entry_normalization_witness :
    (prepareEntry (mkEntry [100, 47] 5 none)).Method = Store ∧
    (prepareEntry (mkEntry [100, 47] 5 none)).CompressedSize64 = 0 ∧
    (prepareEntry (mkEntry [97] 0 none)).Flags.testBit 3 = true := by
  refine ⟨?_, ?_, ?_⟩
  · exact ((directory_entry_normalization (mkEntry [100, 47] 5 none)).1 (by decide)).1
  · exact ((directory_entry_normalization (mkEntry [100, 47] 5 none)).1 (by decide)).2.2.1
  · exact (directory_entry_normalization (mkEntry [97] 0 none)).2 (by decide)

/-- C5 counterexample: an entry with the UTF-8 flag pre-set, not marked
NonUTF8, and a pure-ASCII name and comment (nothing requires UTF-8) still
carries the flag after normalization — the flag is not "set exactly when"
the name or comment requires UTF-8. -/
theorem utf8_flag_counterexample :
    (prepareEntry eFlagged).Flags.testBit 11 = true ∧
    eFlagged.NonUTF8 = false ∧
    (detectUTF8 eFlagged.Name).2 = false ∧
    (detectUTF8 eFlagged.Comment).2 = false := by decide

/-- C5 amended: if the entry is marked NonUTF8 the flag bit 0x800 is
cleared; otherwise the bit is set in the output iff it was already set in
the input or at least one of name/comment requires UTF-8 and both are valid
UTF-8. -/
theorem utf8_flag_iff (fh : FileHeader) :
    (prepareEntry fh).Flags.testBit 11 = true ↔
      (fh.NonUTF8 = false ∧
        (fh.Flags.testBit 11 = true ∨
          (((detectUTF8 fh.Name).2 = true ∨ (detectUTF8 fh.Comment).2 = true) ∧
            (detectUTF8 fh.Name).1 = true ∧ (detectUTF8 fh.Comment).1 = true))) := by
  have hA : Nat.testBit 65527 11 = true := by decide
  have hB : Nat.testBit 8 11 = false := by decide
  have hC : Nat.testBit 63487 11 = false := by decide
  have hD : Nat.testBit 2048 11 = true := by decide
  unfold prepareEntry
  cases hn : fh.NonUTF8
  all_goals repeat' split
  all_goals
    simp_all [Nat.testBit_land, Nat.testBit_lor, hA, hB, hC, hD,
      Bool.or_eq_true, Bool.and_eq_true]
  all_goals
    (split <;> simp_all [Nat.testBit_lor, hD])

/-- C4 counterexample: a header with small sizes but local-header offset
0xFFFFFFFF still gets the ZIP64 extra block appended to its central
directory record. -/
theorem zip64_extra_counterexample :
    hOffBig.fh.CompressedSize64 < uint32max ∧
    hOffBig.fh.UncompressedSize64 < uint32max ∧
    cdEntryExtra hOffBig = hOffBig.fh.Extra ++ zip64ExtraBytes hOffBig := by decide

/-- C4 amended: the central-directory record's extra field carries the
ZIP64 extra block (tag 0x0001, length 24) iff the entry's compressed or
uncompressed size is at least 0xFFFFFFFF or its local-header offset is at
least 0xFFFFFFFF. -/
theorem zip64_extra_iff (h : header) :
    cdEntryExtra h = h.fh.Extra ++ zip64ExtraBytes h ↔
      (isZip64 h.fh = true ∨ uint32max ≤ h.offset) := by
  unfold cdEntryExtra
  split
  · rename_i hc
    simp only [Bool.or_eq_true, decide_eq_true_eq] at hc
    simp [hc]
  · rename_i hc
    simp only [Bool.or_eq_true, decide_eq_true_eq] at hc
    constructor
    · intro he
      have hlen := congrArg List.length he
      simp [zip64ExtraBytes_length] at hlen
    · intro hr
      exact absurd hr hc

/-- C3: the central directory is the entry records followed by — exactly
when the record count is at least 0xFFFF, the directory size at least
0xFFFFFFFF, or the start offset at least 0xFFFFFFFF — a ZIP64
end-of-directory record and locator, and then the legacy end record, which
carries the sentinel values in the ZIP64 case and the true values
otherwise. -/
theorem central_directory_end_layout (start : Int) (dir : List header)
    (comment : List Nat) :
    writeCentralDirectoryBytes start dir comment =
      (dir.map cdEntryBytes).flatten ++
      (if uint16max ≤ dir.length ∨
          uint32max ≤ ((dir.map cdEntryBytes).flatten).length ∨
          uint32max ≤ toUint64 start then
        u32 directory64EndSignature ++ u64 44 ++
        u16 zipVersion45 ++ u16 zipVersion45 ++ u32 0 ++ u32 0 ++
        u64 dir.length ++ u64 dir.length ++
        u64 ((dir.map cdEntryBytes).flatten).length ++ u64 (toUint64 start) ++
        u32 directory64LocSignature ++ u32 0 ++
        u64 (toUint64 start + ((dir.map cdEntryBytes).flatten).length) ++ u32 1 ++
        u32 directoryEndSignature ++ u16 0 ++ u16 0 ++
        u16 uint16max ++ u16 uint16max ++ u32 uint32max ++ u32 uint32max ++
        u16 comment.length ++ comment
      else
        u32 directoryEndSignature ++ u16 0 ++ u16 0 ++
        u16 dir.length ++ u16 dir.length ++
        u32 ((dir.map cdEntryBytes).flatten).length ++ u32 (toUint64 start) ++
        u16 comment.length ++ comment) := by
  simp only [writeCentralDirectoryBytes, cdEndBytes]
  split_ifs with hc <;>
    simp [directory64Bytes, directoryEndBytes, directory64EndLen,
      List.append_assoc]

/-- C9 counterexample: an entry whose extra field is exactly 65535 bytes —
within the limit before normalization — fails local-header encoding with
ExtraTooLong afterwards, because normalization grows the extra field. -/
theorem extra_growth_counterexample :
    eExtraFull.Name.length ≤ uint16max ∧ eExtraFull.Extra.length ≤ uint16max ∧
    writeHeaderBytes (prepareEntry eExtraFull) = .error .extraTooLong := by
  have hl : eExtraFull.Extra.length = 65535 := by
    rw [show eExtraFull.Extra = List.replicate 65535 0 from rfl]
    exact List.length_replicate 65535 0
  refine ⟨by decide, by rw [hl]; decide, ?_⟩
  unfold writeHeaderBytes
  rw [prepareEntry_Name, prepareEntry_Extra_length, hl]
  rw [if_neg (by decide), if_pos (by decide)]

/-- C9 amended: normalization never grows the name and grows the extra
field by exactly 9 bytes (the extended-timestamp block); encoding the local
header afterwards succeeds whenever the name is at most 65535 bytes and the
original extra at most 65526 bytes. -/
theorem normalization_growth (fh : FileHeader) :
    (prepareEntry fh).Name = fh.Name ∧
    (prepareEntry fh).Extra.length = fh.Extra.length + 9 ∧
    (fh.Name.length ≤ uint16max → fh.Extra.length + 9 ≤ uint16max →
      isOkE (writeHeaderBytes (prepareEntry fh)) = true) := by
  refine ⟨prepareEntry_Name fh, prepareEntry_Extra_length fh, ?_⟩
  intro hn he
  unfold writeHeaderBytes
  rw [prepareEntry_Name, prepareEntry_Extra_length]
  rw [if_neg (by omega), if_neg (by omega)]
  rfl

/-- C9 witness: a one-byte name and empty extra encode fine after
normalization. -/
theorem normalization_growth_witness :
    isOkE (writeHeaderBytes (prepareEntry (mkEntry [97] 0 none))) = true :=
  (normalization_growth (mkEntry [97] 0 none)).2.2 (by decide) (by decide)

end Zipserve

namespace Zipserve

/-! ## Builder abort lemmas (for C7 and C10) -/

theorem toInt64_nonneg {c : Nat} (h : c < 2 ^ 63) : 0 ≤ toInt64 c := by
  unfold toInt64
  rw [if_pos h]
  exact Int.natCast_nonneg c

theorem toInt64_neg {c : Nat} (h1 : 2 ^ 63 ≤ c) (h2 : c < 2 ^ 64) :
    toInt64 c < 0 := by
  unfold toInt64
  rw [if_neg (by omega)]
  omega

theorem mAdd_of_nonneg (m : multiReaderAt) (d : ReadFn) (s : Int) (hs : 0 ≤ s) :
    ∃ m2, mAdd m d s = some m2 := by
  unfold mAdd
  split_ifs with h1 h2
  · omega
  · exact ⟨m, rfl⟩
  · exact ⟨_, rfl⟩

theorem mAdd_of_neg (m : multiReaderAt) (d : ReadFn) (s : Int) (hs : s < 0) :
    mAdd m d s = none := by
  unfold mAdd
  rw [if_pos hs]

theorem isOkE_exists {x : Except BuildErr (List Nat)} (h : isOkE x = true) :
    ∃ bs, x = .ok bs := by
  cases x with
  | ok bs => exact ⟨bs, rfl⟩
  | error e => exact absurd h (by simp [isOkE])

theorem buildLoop_err (es : List FileHeader) :
    ∀ (i : Nat) (mcr : multiReaderAt) (dir : List header),
      i < es.length →
      (∀ j, j < i → goodEntry (es.getD j dfltEntry)) →
      badEntry (es.getD i dfltEntry) →
      isErrB (buildLoop es mcr dir) = true := by
  induction es with
  | nil => intro i _ _ hi _ _; exact absurd hi (by simp)
  | cons e rest ih =>
    intro i mcr dir hi hgood hbad
    cases i with
    | zero =>
      simp only [List.getD_cons_zero] at hbad
      unfold buildLoop
      cases hw : writeHeaderBytes (prepareEntry e) with
      | error er => simp [hw, isErrB]
      | ok hb =>
        simp only [hw]
        rcases hbad with ⟨hns, hnone, hc⟩ | ⟨hs, hsome⟩
        · rw [prepareEntry_Name, hns]
          simp only [Bool.false_eq_true, if_false]
          rw [prepareEntry_Content, Option.isNone_iff_eq_none.mp hnone]
          simp only
          rw [prepareEntry_Compressed e hns]
          simp [hc, isErrB]
        · rw [prepareEntry_Name, hs]
          simp only [if_true]
          rw [prepareEntry_Content]
          simp [hsome, isErrB]
    | succ j =>
      simp only [List.getD_cons_succ] at hbad
      have hgood0 : goodEntry e := by
        have := hgood 0 (Nat.succ_pos j)
        simpa using this
      have hgood' : ∀ k, k < j → goodEntry (rest.getD k dfltEntry) := by
        intro k hk
        have := hgood (k + 1) (by omega)
        simpa using this
      have hj : j < rest.length := by simpa using hi
      obtain ⟨hok, hrest⟩ := hgood0
      obtain ⟨hb, hw⟩ := isOkE_exists hok
      unfold buildLoop
      simp only [hw]
      rw [prepareEntry_Name]
      cases hns : endsSlash e.Name with
      | true =>
        rw [hns] at hrest
        simp only [if_true] at hrest ⊢
        rw [prepareEntry_Content, Option.isNone_iff_eq_none.mp hrest]
        simp only [Option.isSome_none, Bool.false_eq_true, if_false]
        exact ih j _ _ hj hgood' hbad
      | false =>
        rw [hns] at hrest
        simp only [Bool.false_eq_true, if_false] at hrest ⊢
        rw [prepareEntry_Content]
        cases hcc : e.Content with
        | some c =>
          have hlt : e.CompressedSize64 < 2 ^ 63 := hrest.1 (by simp [hcc])
          obtain ⟨m2, hm2⟩ := mAdd_of_nonneg (mAddBytes mcr hb) c
            (toInt64 (prepareEntry e).CompressedSize64)
            (by rw [prepareEntry_Compressed e hns]; exact toInt64_nonneg hlt)
          simp only [hm2]
          exact ih j _ _ hj hgood' hbad
        | none =>
          have hz : e.CompressedSize64 = 0 := hrest.2 (by simp [hcc])
          simp only [prepareEntry_Compressed e hns, hz]
          simp only [ne_eq, not_true_eq_false, if_false, reduceIte]
          exact ih j _ _ hj hgood' hbad

theorem buildLoop_panic (es : List FileHeader) :
    ∀ (i : Nat) (mcr : multiReaderAt) (dir : List header),
      i < es.length →
      (∀ j, j < i → goodEntry (es.getD j dfltEntry)) →
      endsSlash (es.getD i dfltEntry).Name = false →
      (es.getD i dfltEntry).Content.isSome = true →
      2 ^ 63 ≤ (es.getD i dfltEntry).CompressedSize64 →
      (es.getD i dfltEntry).CompressedSize64 < 2 ^ 64 →
      isOkE (writeHeaderBytes (prepareEntry (es.getD i dfltEntry))) = true →
      isPanicB (buildLoop es mcr dir) = true := by
  induction es with
  | nil => intro i _ _ hi _ _ _ _ _ _; exact absurd hi (by simp)
  | cons e rest ih =>
    intro i mcr dir hi hgood hns hsome hlo hhi hhdr
    cases i with
    | zero =>
      simp only [List.getD_cons_zero] at hns hsome hlo hhi hhdr
      obtain ⟨hb, hw⟩ := isOkE_exists hhdr
      unfold buildLoop
      simp only [hw]
      rw [prepareEntry_Name, hns]
      simp only [Bool.false_eq_true, if_false]
      rw [prepareEntry_Content]
      obtain ⟨c, hcc⟩ := Option.isSome_iff_exists.mp hsome
      rw [hcc]
      simp only
      rw [prepareEntry_Compressed e hns,
        mAdd_of_neg _ _ _ (toInt64_neg hlo hhi)]
      rfl
    | succ j =>
      simp only [List.getD_cons_succ] at hns hsome hlo hhi hhdr
      have hgood0 : goodEntry e := by simpa using hgood 0 (Nat.succ_pos j)
      have hgood' : ∀ k, k < j → goodEntry (rest.getD k dfltEntry) := by
        intro k hk
        simpa using hgood (k + 1) (by omega)
      have hj : j < rest.length := by simpa using hi
      obtain ⟨hok, hrest⟩ := hgood0
      obtain ⟨hb, hw⟩ := isOkE_exists hok
      unfold buildLoop
      simp only [hw]
      rw [prepareEntry_Name]
      cases hns0 : endsSlash e.Name with
      | true =>
        rw [hns0] at hrest
        simp only [if_true] at hrest ⊢
        rw [prepareEntry_Content, Option.isNone_iff_eq_none.mp hrest]
        simp only [Option.isSome_none, Bool.false_eq_true, if_false]
        exact ih j _ _ hj hgood' hns hsome hlo hhi hhdr
      | false =>
        rw [hns0] at hrest
        simp only [Bool.false_eq_true, if_false] at hrest ⊢
        rw [prepareEntry_Content]
        cases hcc : e.Content with
        | some c =>
          have hlt : e.CompressedSize64 < 2 ^ 63 := hrest.1 (by simp [hcc])
          obtain ⟨m2, hm2⟩ := mAdd_of_nonneg (mAddBytes mcr hb) c
            (toInt64 (prepareEntry e).CompressedSize64)
            (by rw [prepareEntry_Compressed e hns0]; exact toInt64_nonneg hlt)
          simp only [hm2]
          exact ih j _ _ hj hgood' hns hsome hlo hhi hhdr
        | none =>
          have hz : e.CompressedSize64 = 0 := hrest.2 (by simp [hcc])
          simp only [prepareEntry_Compressed e hns0, hz]
          simp only [ne_eq, not_true_eq_false, if_false, reduceIte]
          exact ih j _ _ hj hgood' hns hsome hlo hhi hhdr

end Zipserve

namespace Zipserve

/-- C7 counterexample: a directory-named entry with absent content and
nonzero CompressedSize64 — "absent Content together with nonzero
CompressedSize64" — is accepted: prepareEntry zeroes the sizes of
directory entries before the consistency check, which only runs for file
entries. -/
theorem content_mismatch_counterexample :
    eDir5.Content = none ∧ eDir5.CompressedSize64 ≠ 0 ∧
    isOk (newArchive tDir5) = true := by
  refine ⟨rfl, by decide, by decide⟩

/-- C7 amended: NewArchive returns an error (and no Archive) whenever the
comment is within limit, the prefix (if any) has non-negative size, the
entries before index i are all well-formed, and entry i is inconsistent: a
non-directory entry with absent content and nonzero compressed size, or a
directory-named entry with content present.  Construction aborts at that
first inconsistent entry. -/
theorem invalid_content_rejected (t : Template) (i : Nat)
    (hc : t.Comment.length ≤ uint16max)
    (hpre : t.Prefix = none ∨ 0 ≤ t.PrefixSize)
    (hi : i < t.Entries.length)
    (hgood : ∀ j, j < i → goodEntry (t.Entries.getD j dfltEntry))
    (hbad : badEntry (t.Entries.getD i dfltEntry)) :
    isErr (newArchive t) = true := by
  have hloop : ∀ (mcr : multiReaderAt),
      isErrB (buildLoop t.Entries mcr []) = true :=
    fun mcr => buildLoop_err t.Entries i mcr [] hi hgood hbad
  unfold newArchive
  rw [if_neg (by omega)]
  rcases hp : t.Prefix with _ | p
  · simp only
    cases hb : buildLoop t.Entries ⟨[], 0⟩ [] with
    | ok m d =>
      have hx := hloop ⟨[], 0⟩; rw [hb] at hx; exact absurd hx (by simp [isErrB])
    | err e => simp [hb, isErr]
    | panicked =>
      have hx := hloop ⟨[], 0⟩; rw [hb] at hx; exact absurd hx (by simp [isErrB])
  · have hps : 0 ≤ t.PrefixSize := by
      rcases hpre with h | h
      · rw [hp] at h; exact absurd h (by simp)
      · exact h
    obtain ⟨m2, hm2⟩ := mAdd_of_nonneg ⟨[], 0⟩ p t.PrefixSize hps
    simp only [hm2]
    cases hb : buildLoop t.Entries m2 [] with
    | ok m d =>
      have hx := hloop m2; rw [hb] at hx; exact absurd hx (by simp [isErrB])
    | err e => simp [hb, isErr]
    | panicked =>
      have hx := hloop m2; rw [hb] at hx; exact absurd hx (by simp [isErrB])

/-- C7 witness: a directory entry with content present is rejected. -/
theorem invalid_content_rejected_witness : isErr (newArchive tDirC) = true :=
  invalid_content_rejected tDirC 0 (by decide) (Or.inl rfl) (by decide)
    (fun j hj => absurd hj (by omega))
    (Or.inr ⟨by decide, rfl⟩)

/-- C10: when construction reaches a file entry with content present and
CompressedSize64 at least 2^63 (a uint64 whose int64 reinterpretation is
negative), newArchive panics in the composer's add instead of returning an
error. -/
theorem huge_size_panics (t : Template) (i : Nat)
    (hc : t.Comment.length ≤ uint16max)
    (hpre : t.Prefix = none ∨ 0 ≤ t.PrefixSize)
    (hi : i < t.Entries.length)
    (hgood : ∀ j, j < i → goodEntry (t.Entries.getD j dfltEntry))
    (hns : endsSlash (t.Entries.getD i dfltEntry).Name = false)
    (hsome : (t.Entries.getD i dfltEntry).Content.isSome = true)
    (hlo : 2 ^ 63 ≤ (t.Entries.getD i dfltEntry).CompressedSize64)
    (hhi : (t.Entries.getD i dfltEntry).CompressedSize64 < 2 ^ 64)
    (hhdr : isOkE (writeHeaderBytes (prepareEntry (t.Entries.getD i dfltEntry))) = true) :
    isPanic (newArchive t) = true := by
  have hloop : ∀ (mcr : multiReaderAt),
      isPanicB (buildLoop t.Entries mcr []) = true :=
    fun mcr => buildLoop_panic t.Entries i mcr [] hi hgood hns hsome hlo hhi hhdr
  unfold newArchive
  rw [if_neg (by omega)]
  rcases hp : t.Prefix with _ | p
  · simp only
    cases hb : buildLoop t.Entries ⟨[], 0⟩ [] with
    | ok m d =>
      have hx := hloop ⟨[], 0⟩; rw [hb] at hx; exact absurd hx (by simp [isPanicB])
    | err e =>
      have hx := hloop ⟨[], 0⟩; rw [hb] at hx; exact absurd hx (by simp [isPanicB])
    | panicked => simp [hb, isPanic]
  · have hps : 0 ≤ t.PrefixSize := by
      rcases hpre with h | h
      · rw [hp] at h; exact absurd h (by simp)
      · exact h
    obtain ⟨m2, hm2⟩ := mAdd_of_nonneg ⟨[], 0⟩ p t.PrefixSize hps
    simp only [hm2]
    cases hb : buildLoop t.Entries m2 [] with
    | ok m d =>
      have hx := hloop m2; rw [hb] at hx; exact absurd hx (by simp [isPanicB])
    | err e =>
      have hx := hloop m2; rw [hb] at hx; exact absurd hx (by simp [isPanicB])
    | panicked => simp [hb, isPanic]

/-- C10 witness: one entry of compressed size 2^63 with content present
makes newArchive panic. -/
theorem huge_size_panics_witness : isPanic (newArchive tHuge) = true :=
  huge_size_panics tHuge 0 (by decide) (Or.inl rfl) (by decide)
    (fun j hj => absurd hj (by omega))
    (by decide) (by rfl) (by decide) (by decide) (by rfl)

end Zipserve

namespace Zipserve

/-- C8 counterexample: on a built archive (the empty template's 22-byte
archive), a zero-length read at offset = Size() returns success with no
end-of-data signal — the empty-buffer check precedes the EOF check. -/
theorem empty_buffer_counterexample :
    outcomeSize (newArchive tEmpty) = some 22 ∧
    outcomeReadAt (newArchive tEmpty) 0 22 = some (0, none) := by
  exact ⟨by decide, by decide⟩

/-- C8 amended: a read at offset at least Size() consumes zero bytes and
reports end-of-data for every nonempty buffer; for an empty buffer it
returns zero bytes with no error. -/
theorem read_past_end_eof (mcr : multiReaderAt) (pLen : Nat) (off : Int)
    (hoff : mcr.size ≤ off) :
    ReadAtContext mcr pLen off =
      (0, if pLen = 0 then none else some ReadErr.eof) := by
  unfold ReadAtContext
  split_ifs with h1
  · rfl
  · rfl

/-- C8 witness: reading 3 bytes at offset 5 of a 2-byte composer. -/
theorem read_past_end_eof_witness :
    ReadAtContext mcrW8 3 5 = (0, some ReadErr.eof) := by
  have h := read_past_end_eof mcrW8 3 5 (by decide)
  simpa using h

end Zipserve

namespace Zipserve

/-! ## Composer read lemmas (for C2) -/

/-- Invariants of Go's `sort.Search` binary-search loop, independent of
monotonicity: the result is in `[i, j]`, satisfies the predicate unless it
equals `j`, and the predicate fails just below it unless it equals `i`. -/
theorem searchLoop_spec (f : Nat → Bool) (i j : Nat) (hij : i ≤ j) :
    i ≤ searchLoop f i j ∧ searchLoop f i j ≤ j ∧
    (searchLoop f i j = j ∨ f (searchLoop f i j) = true) ∧
    (searchLoop f i j = i ∨ f (searchLoop f i j - 1) = false) := by
  unfold searchLoop
  split
  · rename_i hlt
    dsimp only
    split
    · rename_i hfm
      have ih := searchLoop_spec f i ((i + j) / 2) (by omega)
      refine ⟨ih.1, by omega, ?_, ih.2.2.2⟩
      rcases ih.2.2.1 with he | ht
      · right; rw [he]; exact hfm
      · right; exact ht
    · rename_i hfm
      have hfm' : f ((i + j) / 2) = false := by
        cases hv : f ((i + j) / 2)
        · rfl
        · exact absurd hv hfm
      have ih := searchLoop_spec f ((i + j) / 2 + 1) j (by omega)
      refine ⟨by omega, ih.2.1, ih.2.2.1, ?_⟩
      rcases ih.2.2.2 with he | hf
      · right; rw [he, Nat.add_sub_cancel]; exact hfm'
      · right; exact hf
  · rename_i hge
    exact ⟨Nat.le_refl i, by omega, Or.inl (by omega), Or.inl rfl⟩
  termination_by j - i

/-- Where part `idx` ends, phrased by the next index. -/
theorem endOffset_succ_eq (mcr : multiReaderAt) (idx : Nat)
    (h : idx < mcr.parts.length) :
    endOffset mcr idx =
      if idx + 1 < mcr.parts.length then (mcr.parts.getD (idx + 1) dfltPart).1
      else mcr.size := by
  unfold endOffset
  by_cases h1 : idx = mcr.parts.length - 1
  · rw [if_pos h1, if_neg (by omega)]
  · rw [if_neg h1, if_pos (by omega)]

/-- `bytes.Reader` satisfies the reader contract for its own length. -/
theorem bytesReadAt_wellBehaved (data : List Nat) :
    wellBehaved (bytesReadAt data) (data.length : Int) := by
  intro bufLen off
  unfold bytesReadAt
  split_ifs with h1 h2
  · exact ⟨Nat.zero_le _, fun _ habs => by simp at habs, fun _ => by simp⟩
  · refine ⟨Nat.zero_le _, fun hb _ => ⟨by omega, hb⟩, fun _ => by simp⟩
  · dsimp only
    refine ⟨Nat.min_le_left _ _, ?_, ?_⟩
    · intro hb heof
      have hlt : min bufLen (data.length - off.toNat) < bufLen := by
        by_contra hge
        rw [if_neg hge] at heof
        exact Option.noConfusion heof
      refine ⟨?_, hlt⟩
      have hmin : min bufLen (data.length - off.toNat) = data.length - off.toNat := by
        omega
      rw [hmin]
      have hoff0 : 0 ≤ off := by omega
      have hoffl : off < (data.length : Int) := by omega
      omega
    · intro hlt
      rw [if_pos hlt]
      exact Option.noConfusion

end Zipserve

namespace Zipserve

/-- The loop invariant of `ReadAtContext`: starting the loop at part `idx`
with `nAcc` bytes already accumulated and `pLen` remaining, the result never
exceeds the requested total, and an `io.EOF` result accounts for the whole
range from the original offset `off0` to the composer's size.  The third
hypothesis is the accounting invariant: the original offset plus the bytes
consumed so far equals the loop's current position (or the buffer is spent). -/
theorem readLoop_spec (mcr : multiReaderAt)
    (hwf : ∀ i, i < mcr.parts.length →
      (mcr.parts.getD i dfltPart).1 < endOffset mcr i)
    (hrb : ∀ i, i < mcr.parts.length →
      wellBehaved (mcr.parts.getD i dfltPart).2
        (endOffset mcr i - (mcr.parts.getD i dfltPart).1))
    (firstPart : Nat) (off0 : Int) (idx : Nat) (off : Int) (pLen nAcc : Nat)
    (hfi : firstPart ≤ idx)
    (hoff : idx < mcr.parts.length →
      (if firstPart < idx then (mcr.parts.getD idx dfltPart).1 else off) <
        endOffset mcr idx)
    (hinv : off0 + (nAcc : Int) =
      (if idx < mcr.parts.length
       then (if firstPart < idx then (mcr.parts.getD idx dfltPart).1 else off)
       else mcr.size) ∨ pLen = 0) :
    (readLoop mcr firstPart idx off pLen nAcc).1 ≤ nAcc + pLen ∧
    ((readLoop mcr firstPart idx off pLen nAcc).2 = some ReadErr.eof →
      mcr.size ≤ off0 + ((readLoop mcr firstPart idx off pLen nAcc).1 : Int)) := by
  unfold readLoop
  split
  · rename_i hcond
    obtain ⟨hidx, hpl⟩ := hcond
    dsimp only
    have hoff1 := hoff hidx
    have hrem : 0 < endOffset mcr idx -
        (if firstPart < idx then (mcr.parts.getD idx dfltPart).1 else off) := by
      omega
    rcases hres : (mcr.parts.getD idx dfltPart).2
        (if endOffset mcr idx -
            (if firstPart < idx then (mcr.parts.getD idx dfltPart).1 else off) <
            (pLen : Int)
         then endOffset mcr idx -
            (if firstPart < idx then (mcr.parts.getD idx dfltPart).1 else off)
         else (pLen : Int)).toNat
        ((if firstPart < idx then (mcr.parts.getD idx dfltPart).1 else off) -
          (mcr.parts.getD idx dfltPart).1) with ⟨n2, err2⟩
    obtain ⟨hb1, hb2, hb3⟩ := hrb idx hidx
      (if endOffset mcr idx -
          (if firstPart < idx then (mcr.parts.getD idx dfltPart).1 else off) <
          (pLen : Int)
       then endOffset mcr idx -
          (if firstPart < idx then (mcr.parts.getD idx dfltPart).1 else off)
       else (pLen : Int)).toNat
      ((if firstPart < idx then (mcr.parts.getD idx dfltPart).1 else off) -
        (mcr.parts.getD idx dfltPart).1)
    rw [hres] at hb1 hb2 hb3
    dsimp only at hb1 hb2 hb3
    have hinv1 : off0 + (nAcc : Int) =
        (if firstPart < idx then (mcr.parts.getD idx dfltPart).1 else off) := by
      rcases hinv with h | h
      · rw [if_pos hidx] at h; exact h
      · omega
    -- facts about the request size
    have hreq_le_pl : (if endOffset mcr idx -
          (if firstPart < idx then (mcr.parts.getD idx dfltPart).1 else off) <
          (pLen : Int)
       then endOffset mcr idx -
          (if firstPart < idx then (mcr.parts.getD idx dfltPart).1 else off)
       else (pLen : Int)).toNat ≤ pLen := by
      split <;> omega
    have hreq_pos : 0 < (if endOffset mcr idx -
          (if firstPart < idx then (mcr.parts.getD idx dfltPart).1 else off) <
          (pLen : Int)
       then endOffset mcr idx -
          (if firstPart < idx then (mcr.parts.getD idx dfltPart).1 else off)
       else (pLen : Int)).toNat := by
      split <;> omega
    have hreq_le_rem : ((if endOffset mcr idx -
          (if firstPart < idx then (mcr.parts.getD idx dfltPart).1 else off) <
          (pLen : Int)
       then endOffset mcr idx -
          (if firstPart < idx then (mcr.parts.getD idx dfltPart).1 else off)
       else (pLen : Int)).toNat : Int) ≤ endOffset mcr idx -
          (if firstPart < idx then (mcr.parts.getD idx dfltPart).1 else off) := by
      split <;> omega
    cases err2 with
    | some e =>
      dsimp only
      constructor
      · omega
      · intro he
        rw [Option.some_inj] at he
        subst he
        obtain ⟨hb2a, hb2b⟩ := hb2 hreq_pos rfl
        omega
    | none =>
      have hn2 : n2 = (if endOffset mcr idx -
            (if firstPart < idx then (mcr.parts.getD idx dfltPart).1 else off) <
            (pLen : Int)
         then endOffset mcr idx -
            (if firstPart < idx then (mcr.parts.getD idx dfltPart).1 else off)
         else (pLen : Int)).toNat := by
        by_contra hne
        exact hb3 (by omega) rfl
      have ih := readLoop_spec mcr hwf hrb firstPart off0 (idx + 1)
        (if firstPart < idx then (mcr.parts.getD idx dfltPart).1 else off)
        (pLen - n2) (nAcc + n2)
        (by omega)
        (by
          intro hlt
          rw [if_pos (by omega)]
          exact hwf (idx + 1) hlt)
        (by
          by_cases hcap : endOffset mcr idx -
              (if firstPart < idx then (mcr.parts.getD idx dfltPart).1 else off) <
              (pLen : Int)
          · left
            rw [if_pos hcap] at hn2
            have hn2i : (n2 : Int) = endOffset mcr idx -
                (if firstPart < idx then (mcr.parts.getD idx dfltPart).1 else off) := by
              omega
            rw [endOffset_succ_eq mcr idx hidx] at hn2i
            by_cases hnext : idx + 1 < mcr.parts.length
            · rw [if_pos hnext]
              rw [if_pos hnext] at hn2i
              rw [if_pos (by omega)]
              push_cast
              omega
            · rw [if_neg hnext]
              rw [if_neg hnext] at hn2i
              push_cast
              omega
          · right
            rw [if_neg hcap] at hn2
            omega)
      dsimp only
      constructor
      · have := ih.1
        omega
      · intro he
        have := ih.2 he
        omega
  · rename_i hncond
    split
    · rename_i hpl
      constructor
      · omega
      · intro _
        rcases hinv with h | h
        · rw [if_neg (by tauto)] at h
          omega
        · omega
    · constructor
      · omega
      · intro habs
        exact absurd habs (by simp)
  termination_by mcr.parts.length - idx

end Zipserve

namespace Zipserve

/-- C2: for a composer with the construction invariants (nonempty part
list, positive part sizes) whose backing readers honor the io.ReaderAt
contract for their declared sizes, ReadAtContext never returns more bytes
than requested and signals io.EOF only when the offset plus the bytes
returned reaches Size(). -/
theorem readAt_bounds (mcr : multiReaderAt)
    (hne : mcr.parts ≠ [])
    (hwf : ∀ i, i < mcr.parts.length →
      (mcr.parts.getD i dfltPart).1 < endOffset mcr i)
    (hrb : ∀ i, i < mcr.parts.length →
      wellBehaved (mcr.parts.getD i dfltPart).2
        (endOffset mcr i - (mcr.parts.getD i dfltPart).1))
    (pLen : Nat) (off : Int) :
    (ReadAtContext mcr pLen off).1 ≤ pLen ∧
    ((ReadAtContext mcr pLen off).2 = some ReadErr.eof →
      mcr.size ≤ off + ((ReadAtContext mcr pLen off).1 : Int)) := by
  unfold ReadAtContext sortSearch
  split_ifs with h1 h2
  · refine ⟨Nat.zero_le _, ?_⟩
    intro habs
    simp at habs
  · refine ⟨Nat.zero_le _, ?_⟩
    intro _
    push_cast
    omega
  · dsimp only
    have hlen : 0 < mcr.parts.length := by
      cases hp : mcr.parts
      · exact absurd hp hne
      · simp [hp]
    have hlast : (fun i => decide (off < endOffset mcr i))
        (mcr.parts.length - 1) = true := by
      show decide (off < endOffset mcr (mcr.parts.length - 1)) = true
      unfold endOffset
      rw [if_pos rfl]
      simp
      omega
    have hs := searchLoop_spec (fun i => decide (off < endOffset mcr i)) 0
      mcr.parts.length (Nat.zero_le _)
    have hrlt : searchLoop (fun i => decide (off < endOffset mcr i)) 0
        mcr.parts.length < mcr.parts.length := by
      by_contra hge
      have hre : searchLoop (fun i => decide (off < endOffset mcr i)) 0
          mcr.parts.length = mcr.parts.length := by omega
      rcases hs.2.2.2 with h0 | hf
      · omega
      · rw [hre] at hf
        rw [hf] at hlast
        exact Bool.noConfusion hlast
    have hfr : (fun i => decide (off < endOffset mcr i))
        (searchLoop (fun i => decide (off < endOffset mcr i)) 0
          mcr.parts.length) = true := by
      rcases hs.2.2.1 with he | ht
      · omega
      · exact ht
    have hfr' : off < endOffset mcr
        (searchLoop (fun i => decide (off < endOffset mcr i)) 0
          mcr.parts.length) := by
      simpa using hfr
    have hmain := readLoop_spec mcr hwf hrb _ off _ off pLen 0
      (Nat.le_refl _)
      (fun _ => by rw [if_neg (Nat.lt_irrefl _)]; exact hfr')
      (Or.inl (by rw [if_pos hrlt, if_neg (Nat.lt_irrefl _)]; simp))
    simpa using hmain

/-- C2 witness: reading 2 bytes at offset 1 of the 3-byte composer. -/
theorem readAt_bounds_witness :
    (ReadAtContext mcrW2 2 1).1 ≤ 2 ∧
    ((ReadAtContext mcrW2 2 1).2 = some ReadErr.eof →
      mcrW2.size ≤ 1 + ((ReadAtContext mcrW2 2 1).1 : Int)) := by
  apply readAt_bounds mcrW2 (by simp [mcrW2]) ?_ ?_ 2 1
  · intro i hi
    have hi0 : i = 0 := by
      have : mcrW2.parts.length = 1 := by simp [mcrW2]
      omega
    subst hi0
    decide
  · intro i hi
    have hi0 : i = 0 := by
      have : mcrW2.parts.length = 1 := by simp [mcrW2]
      omega
    subst hi0
    exact bytesReadAt_wellBehaved [5, 6, 7]

end Zipserve

namespace Zipserve

/-! ## Builder size-accounting lemmas (for C1) -/

theorem wrap64_id {x : Int} (h0 : 0 ≤ x) (h1 : x < 2 ^ 63) : wrap64 x = x := by
  unfold wrap64
  omega

theorem toUint64_id {x : Int} (h0 : 0 ≤ x) (h1 : x < 2 ^ 64) :
    toUint64 x = x.toNat := by
  unfold toUint64
  omega

theorem mAddBytes_size (m : multiReaderAt) (data : List Nat)
    (h0 : 0 ≤ m.size) (h1 : m.size + (data.length : Int) < 2 ^ 63) :
    (mAddBytes m data).size = m.size + (data.length : Int) := by
  unfold mAddBytes mAdd
  split_ifs with ha hb
  · omega
  · simp only [Option.getD_some]
    omega
  · simp only [Option.getD_some]
    exact wrap64_id (by omega) h1

theorem mAdd_some_size {m : multiReaderAt} {d : ReadFn} {s : Int}
    {m2 : multiReaderAt} (hma : mAdd m d s = some m2)
    (h0 : 0 ≤ m.size) (h1 : m.size + s < 2 ^ 63) :
    m2.size = m.size + s := by
  unfold mAdd at hma
  split_ifs at hma with ha hb
  all_goals first
    | exact Option.noConfusion hma
    | (injection hma with h; subst h; omega)
    | (injection hma with h; subst h; simpa using wrap64_id (show 0 ≤ m.size + s by omega) h1)

theorem writeHeaderBytes_length {h : FileHeader} {bs : List Nat}
    (hw : writeHeaderBytes h = .ok bs) :
    bs.length = 30 + h.Name.length + h.Extra.length := by
  unfold writeHeaderBytes at hw
  split_ifs at hw
  injection hw with hbs
  subst hbs
  simp [u32, u16]
  omega

theorem makeDataDescriptor_length (fh : FileHeader) :
    (makeDataDescriptor fh).length =
      if isZip64 fh then dataDescriptor64Len else dataDescriptorLen := by
  unfold makeDataDescriptor
  split_ifs <;>
    simp [u32, u64, dataDescriptor64Len, dataDescriptorLen]

theorem entriesLen_cons (e : FileHeader) (rest : List FileHeader) :
    entriesLen (e :: rest) =
      localLen e + contentLen e + descLen e + entriesLen rest := by
  simp [entriesLen]

theorem contentLen_dir {e : FileHeader} (h : endsSlash e.Name = true) :
    contentLen e = 0 := by
  simp [contentLen, h]

theorem descLen_dir {e : FileHeader} (h : endsSlash e.Name = true) :
    descLen e = 0 := by
  simp [descLen, h]

theorem contentLen_file {e : FileHeader} (h : endsSlash e.Name = false) :
    contentLen e = e.CompressedSize64 := by
  simp [contentLen, h]

theorem descLen_file {e : FileHeader} (h : endsSlash e.Name = false) :
    descLen e = (makeDataDescriptor (prepareEntry e)).length := by
  rw [makeDataDescriptor_length]
  simp [descLen, h]

theorem localLen_of_ok {e : FileHeader} {bs : List Nat}
    (hw : writeHeaderBytes (prepareEntry e) = .ok bs) :
    bs.length = localLen e := by
  rw [writeHeaderBytes_length hw]
  simp [localLen, fileHeaderLen]

theorem finalEntry_dir {e : FileHeader} (h : endsSlash e.Name = true) :
    finalEntry e = prepareEntry e := by
  simp [finalEntry, prepareEntry_Name, h]

theorem finalEntry_file {e : FileHeader} (h : endsSlash e.Name = false) :
    finalEntry e = descriptorMutated (prepareEntry e) := by
  simp [finalEntry, prepareEntry_Name, h]

end Zipserve

namespace Zipserve

/-- The builder loop's size/directory accounting: a successful pass over
`es` advances the composer size by exactly the entries' layout total and
appends exactly the specification-side directory records, provided the
running size stays below 2^63 (no int64 wrap). -/
theorem buildLoop_ok_spec (es : List FileHeader) :
    ∀ (mcr : multiReaderAt) (dir : List header) (m2 : multiReaderAt)
      (d2 : List header),
      buildLoop es mcr dir = .ok m2 d2 →
      0 ≤ mcr.size →
      mcr.size + (entriesLen es : Int) < 2 ^ 63 →
      m2.size = mcr.size + (entriesLen es : Int) ∧
      d2 = dir ++ specDir es mcr.size.toNat := by
  induction es with
  | nil =>
    intro mcr dir m2 d2 hok h0 hb
    unfold buildLoop at hok
    injection hok with h1 h2
    subst h1
    subst h2
    simp [entriesLen, specDir]
  | cons e rest ih =>
    intro mcr dir m2 d2 hok h0 hb
    rw [entriesLen_cons] at hb
    push_cast at hb
    unfold buildLoop at hok
    cases hw : writeHeaderBytes (prepareEntry e) with
    | error er =>
      simp only [hw] at hok
      exact BuildRes.noConfusion hok
    | ok hbts =>
      simp only [hw] at hok
      have hlen : hbts.length = localLen e := localLen_of_ok hw
      have hm1 : (mAddBytes mcr hbts).size = mcr.size + (localLen e : Int) := by
        rw [mAddBytes_size mcr hbts h0 (by rw [hlen]; push_cast; omega), hlen]
      have hoffeq : toUint64 mcr.size = mcr.size.toNat :=
        toUint64_id h0 (by omega)
      rw [prepareEntry_Name] at hok
      cases hns : endsSlash e.Name with
      | true =>
        rw [hns] at hok
        simp only [if_true] at hok
        cases hcs : (prepareEntry e).Content.isSome with
        | true =>
          rw [hcs] at hok
          simp only [if_true] at hok
          exact BuildRes.noConfusion hok
        | false =>
          rw [hcs] at hok
          simp only [Bool.false_eq_true, if_false] at hok
          have hrec := ih (mAddBytes mcr hbts)
            (dir ++ [⟨prepareEntry e, toUint64 mcr.size⟩]) m2 d2 hok
            (by rw [hm1]; omega)
            (by rw [hm1]; push_cast; omega)
          have hm1n : (mAddBytes mcr hbts).size.toNat =
              mcr.size.toNat + localLen e := by
            rw [hm1]; omega
          constructor
          · rw [hrec.1, hm1, entriesLen_cons, contentLen_dir hns, descLen_dir hns]
            push_cast
            ring
          · rw [hrec.2, hm1n, hoffeq, List.append_assoc]
            congr 1
            simp [specDir, finalEntry_dir hns, contentLen_dir hns, descLen_dir hns]
      | false =>
        rw [hns] at hok
        simp only [Bool.false_eq_true, if_false] at hok
        rw [prepareEntry_Content] at hok
        have hc1 : (prepareEntry e).CompressedSize64 = e.CompressedSize64 :=
          prepareEntry_Compressed e hns
        have hcl : contentLen e = e.CompressedSize64 := contentLen_file hns
        rw [hcl] at hb
        have hc63 : (e.CompressedSize64 : Int) < 2 ^ 63 := by omega
        have hdesc : (makeDataDescriptor (prepareEntry e)).length = descLen e :=
          (descLen_file hns).symm
        cases hcc : e.Content with
        | some c =>
          rw [hcc] at hok
          dsimp only at hok
          cases hma : mAdd (mAddBytes mcr hbts) c
              (toInt64 (prepareEntry e).CompressedSize64) with
          | none =>
            rw [hma] at hok
            exact BuildRes.noConfusion hok
          | some mcr2 =>
            rw [hma] at hok
            dsimp only at hok
            have htoi : toInt64 (prepareEntry e).CompressedSize64 =
                (e.CompressedSize64 : Int) := by
              rw [hc1]
              unfold toInt64
              rw [if_pos (by exact_mod_cast hc63)]
            rw [htoi] at hma
            have hm2s : mcr2.size =
                mcr.size + (localLen e : Int) + (e.CompressedSize64 : Int) := by
              have hx := mAdd_some_size hma (by rw [hm1]; omega)
                (by rw [hm1]; push_cast; omega)
              rw [hm1] at hx
              omega
            have hm3 : (mAddBytes mcr2 (makeDataDescriptor (prepareEntry e))).size =
                mcr.size + (localLen e : Int) + (e.CompressedSize64 : Int) +
                  (descLen e : Int) := by
              rw [mAddBytes_size mcr2 _ (by rw [hm2s]; omega)
                (by rw [hm2s, hdesc]; push_cast; omega), hm2s, hdesc]
            have hrec := ih _
              (dir ++ [⟨descriptorMutated (prepareEntry e), toUint64 mcr.size⟩])
              m2 d2 hok
              (by rw [hm3]; omega)
              (by rw [hm3]; push_cast; omega)
            have hm3n : (mAddBytes mcr2 (makeDataDescriptor (prepareEntry e))).size.toNat =
                mcr.size.toNat + (localLen e + contentLen e + descLen e) := by
              rw [hm3, hcl]
              omega
            constructor
            · rw [hrec.1, hm3, entriesLen_cons, hcl]
              push_cast
              ring
            · rw [hrec.2, hm3n, hoffeq, List.append_assoc]
              congr 1
              simp [specDir, finalEntry_file hns]
              congr 1
              omega
        | none =>
          rw [hcc] at hok
          dsimp only at hok
          by_cases hz : (prepareEntry e).CompressedSize64 = 0
          · rw [if_neg (not_not_intro hz)] at hok
            have hc0 : e.CompressedSize64 = 0 := by rw [← hc1]; exact hz
            have hm3 : (mAddBytes (mAddBytes mcr hbts)
                (makeDataDescriptor (prepareEntry e))).size =
                mcr.size + (localLen e : Int) + (descLen e : Int) := by
              rw [mAddBytes_size _ _ (by rw [hm1]; omega)
                (by rw [hm1, hdesc]; push_cast; omega), hm1, hdesc]
            have hrec := ih _
              (dir ++ [⟨descriptorMutated (prepareEntry e), toUint64 mcr.size⟩])
              m2 d2 hok
              (by rw [hm3]; omega)
              (by rw [hm3]; push_cast; omega)
            have hm3n : (mAddBytes (mAddBytes mcr hbts)
                (makeDataDescriptor (prepareEntry e))).size.toNat =
                mcr.size.toNat + (localLen e + contentLen e + descLen e) := by
              rw [hm3, hcl, hc0]
              omega
            constructor
            · rw [hrec.1, hm3, entriesLen_cons, hcl, hc0]
              push_cast
              ring
            · rw [hrec.2, hm3n, hoffeq, List.append_assoc]
              congr 1
              simp [specDir, finalEntry_file hns]
              congr 1
              omega
          · rw [if_pos hz] at hok
            exact BuildRes.noConfusion hok

end Zipserve

namespace Zipserve

/-- The final size computation once the builder loop has succeeded: adding
the central directory lands exactly on the specification total. -/
theorem newArchive_tail_size (t : Template) (mcrP : multiReaderAt)
    (hsz : mcrP.size = (prefixLen t : Int)) (hb : specTotal t < 2 ^ 63)
    (mcr : multiReaderAt) (dir : List header)
    (hbl : buildLoop t.Entries mcrP [] = .ok mcr dir) :
    (mAddBytes mcr (writeCentralDirectoryBytes mcr.size dir t.Comment)).size =
      ((specTotal t : Nat) : Int) := by
  have hspec := buildLoop_ok_spec t.Entries mcrP [] mcr dir hbl
    (by rw [hsz]; exact Int.natCast_nonneg _)
    (by rw [hsz]; unfold specTotal at hb; push_cast; omega)
  have hms : mcr.size = ((prefixLen t + entriesLen t.Entries : Nat) : Int) := by
    rw [hspec.1, hsz]
    push_cast
    ring
  have hdir : dir = specDir t.Entries (prefixLen t) := by
    have hx := hspec.2
    rw [hsz] at hx
    simpa using hx
  rw [hdir]
  rw [mAddBytes_size _ _ (by rw [hms]; exact Int.natCast_nonneg _)
    (by rw [hms]; unfold specTotal at hb; push_cast; push_cast at hb; omega)]
  rw [hms]
  unfold specTotal
  push_cast
  ring

/-- C1 counterexample: two entries of compressed size 2^62 are accepted,
but the running int64 size wraps, so Size() is negative and differs from
the layout sum. -/
theorem size_overflow_counterexample :
    isOk (newArchive tBig) = true ∧
    outcomeSize (newArchive tBig) ≠ some ((specTotal tBig : Nat) : Int) := by
  constructor
  · decide
  · decide

/-- C1 amended: for every accepted Template whose layout sum stays below
2^63 (so the internal int64 size never wraps), Size() equals the sum of the
prefix length, all encoded local header lengths, all content segment sizes,
all data descriptor lengths, and the encoded central directory length. -/
theorem size_eq_layout_sum (t : Template)
    (hok : isOk (newArchive t) = true) (hb : specTotal t < 2 ^ 63) :
    outcomeSize (newArchive t) = some ((specTotal t : Nat) : Int) := by
  unfold newArchive at hok ⊢
  by_cases hcm : uint16max < t.Comment.length
  · rw [if_pos hcm] at hok
    simp [isOk] at hok
  · rw [if_neg hcm] at hok ⊢
    rcases hp : t.Prefix with _ | p
    · simp only [hp] at hok ⊢
      cases hbl : buildLoop t.Entries ⟨[], 0⟩ [] with
      | err e => rw [hbl] at hok; simp [isOk] at hok
      | panicked => rw [hbl] at hok; simp [isOk] at hok
      | ok mcr dir =>
        dsimp only
        simp only [outcomeSize]
        rw [newArchive_tail_size t ⟨[], 0⟩ (by simp [prefixLen, hp]) hb mcr dir hbl]
    · simp only [hp] at hok ⊢
      cases hma : mAdd ⟨[], 0⟩ p t.PrefixSize with
      | none => rw [hma] at hok; simp [isOk] at hok
      | some mcrP =>
        rw [hma] at hok
        dsimp only at hok ⊢
        have hnn : 0 ≤ t.PrefixSize := by
          by_contra hneg
          rw [mAdd_of_neg _ _ _ (by omega)] at hma
          exact Option.noConfusion hma
        have hple : prefixLen t = t.PrefixSize.toNat := by simp [prefixLen, hp]
        have hPb : (0 : Int) + t.PrefixSize < 2 ^ 63 := by
          have hle : prefixLen t ≤ specTotal t := by
            unfold specTotal
            omega
          omega
        have hsz : mcrP.size = (prefixLen t : Int) := by
          have hx := mAdd_some_size hma (by norm_num) hPb
          simp at hx
          rw [hx, hple]
          omega
        cases hbl : buildLoop t.Entries mcrP [] with
        | err e => rw [hbl] at hok; simp [isOk] at hok
        | panicked => rw [hbl] at hok; simp [isOk] at hok
        | ok mcr dir =>
          dsimp only
          simp only [outcomeSize]
          rw [newArchive_tail_size t mcrP hsz hb mcr dir hbl]

/-- C1 witness: the one-entry "foo" archive has Size() 140, matching the
layout sum. -/
theorem size_eq_layout_sum_witness :
    isOk (newArchive tFoo) = true ∧ specTotal tFoo < 2 ^ 63 ∧
    outcomeSize (newArchive tFoo) = some ((specTotal tFoo : Nat) : Int) :=
  ⟨by decide, by decide, size_eq_layout_sum tFoo (by decide) (by decide)⟩

end Zipserve
